import Mathlib

/-
Verification of the performance-comparison benchmarking harness
(bin/plugin/commands/performance.js).

Embedding conventions:
- JavaScript numbers are modelled as exact extended rationals (JSNum):
  a finite rational, NaN, or a signed infinity.  Double-precision rounding
  is outside the scope of this model; all sample values appearing in the
  claims are exactly representable.
- The awaited external effects (shell commands, the wp-env start/stop
  commands, the test command together with reading its JSON result file)
  are modelled by an oracle (TrialOracle) giving the outcome of each
  effect, and the orchestration code is embedded as pure functions from
  the oracle to a trace of command invocations plus a result.
- JavaScript objects used as string-keyed dictionaries are modelled as
  association lists in insertion order; property assignment is upsert
  (update in place if present, append otherwise).
-/

/-- A JavaScript number: a finite (exact) rational, NaN, or a signed
infinity. -/
inductive JSNum where
  | real (q : ℚ)
  | nan
  | inf
  | negInf
deriving DecidableEq, Repr, Inhabited

namespace JSNum

/-- JavaScript addition on JSNum (NaN propagates; Infinity plus negative
Infinity is NaN). -/
def add : JSNum → JSNum → JSNum
  | nan, _ => nan
  | _, nan => nan
  | inf, negInf => nan
  | negInf, inf => nan
  | inf, _ => inf
  | _, inf => inf
  | negInf, _ => negInf
  | _, negInf => negInf
  | real a, real b => real (a + b)

/-- JavaScript subtraction on JSNum. -/
def sub : JSNum → JSNum → JSNum
  | nan, _ => nan
  | _, nan => nan
  | inf, inf => nan
  | negInf, negInf => nan
  | inf, _ => inf
  | negInf, _ => negInf
  | real _, inf => negInf
  | real _, negInf => inf
  | real a, real b => real (a - b)

/-- JavaScript multiplication on JSNum (zero times an infinity is NaN). -/
def mul : JSNum → JSNum → JSNum
  | nan, _ => nan
  | _, nan => nan
  | inf, inf => inf
  | inf, negInf => negInf
  | negInf, inf => negInf
  | negInf, negInf => inf
  | inf, real b => if b = 0 then nan else if 0 < b then inf else negInf
  | real a, inf => if a = 0 then nan else if 0 < a then inf else negInf
  | negInf, real b => if b = 0 then nan else if 0 < b then negInf else inf
  | real a, negInf => if a = 0 then nan else if 0 < a then negInf else inf
  | real a, real b => real (a * b)

/-- JavaScript division on JSNum (division by zero gives NaN or a signed
infinity; signed zeros are not modelled, the sign of zero being irrelevant
to the program). -/
def div : JSNum → JSNum → JSNum
  | nan, _ => nan
  | _, nan => nan
  | inf, inf => nan
  | inf, negInf => nan
  | negInf, inf => nan
  | negInf, negInf => nan
  | real _, inf => real 0
  | real _, negInf => real 0
  | inf, real b => if 0 ≤ b then inf else negInf
  | negInf, real b => if 0 ≤ b then negInf else inf
  | real a, real b =>
      if b = 0 then (if a = 0 then nan else if 0 < a then inf else negInf)
      else real (a / b)

/-- The JavaScript strict less-than comparison (false whenever either
operand is NaN). -/
def lt : JSNum → JSNum → Bool
  | nan, _ => false
  | _, nan => false
  | negInf, negInf => false
  | negInf, _ => true
  | _, negInf => false
  | inf, _ => false
  | real _, inf => true
  | real a, real b => decide (a < b)

/-- Whether a JSNum is a (strictly) negative value (used to interpret the
sign of a sort-comparator result). -/
def isNeg : JSNum → Bool
  | real q => decide (q < 0)
  | negInf => true
  | _ => false

/-- The JavaScript isFinite predicate: true exactly on finite values. -/
def isFinite : JSNum → Bool
  | real _ => true
  | _ => false

/-- JavaScript Math.round on JSNum: for finite values the closest integer,
ties toward positive infinity (floor of x + 1/2); NaN and the infinities
are returned unchanged. -/
def round : JSNum → JSNum
  | real q => real ((⌊q + 1 / 2⌋ : ℤ) : ℚ)
  | nan => nan
  | inf => inf
  | negInf => negInf

end JSNum

open JSNum

/-- One step of JavaScript Math.min over spread arguments: NaN absorbs,
otherwise keep the smaller of the accumulator and the next argument. -/
def minStep (acc v : JSNum) : JSNum :=
  if acc = nan ∨ v = nan then nan else if JSNum.lt v acc then v else acc

/-- One step of JavaScript Math.max over spread arguments. -/
def maxStep (acc v : JSNum) : JSNum :=
  if acc = nan ∨ v = nan then nan else if JSNum.lt acc v then v else acc

/-- JavaScript Math.min applied to a spread array: the fold of minStep
starting from positive infinity (so the empty spread gives Infinity). -/
def mathMin (l : List JSNum) : JSNum := l.foldl minStep inf

/-- JavaScript Math.max applied to a spread array: the fold of maxStep
starting from negative infinity (so the empty spread gives negative
Infinity). -/
def mathMax (l : List JSNum) : JSNum := l.foldl maxStep negInf

/-- Source function average: array.reduce((a, b) => a + b, 0) divided by
array.length.  On an empty array this is 0 / 0, i.e. NaN. -/
def average (array : List JSNum) : JSNum :=
  JSNum.div (array.foldl JSNum.add (real 0)) (real array.length)

/-- The sort comparator (a, b) => a - b used by the source median: its
result is negative exactly when the comparator mandates a before b. -/
def cmpLt (a b : JSNum) : Bool := (JSNum.sub a b).isNeg

/-- The ordering realised by Array.prototype.sort with comparator
(a, b) => a - b: a may stay before b unless the comparator mandates b
before a.  A stable sort under this relation models the
spec-mandated stable, comparator-consistent sort. -/
def jsLe (a b : JSNum) : Prop := ¬ cmpLt b a = true

instance : DecidableRel jsLe := fun _ _ => instDecidableNot

/-- Array.prototype.sort with comparator (a, b) => a - b, modelled as a
stable insertion sort under jsLe (the unique stable sorted order whenever
the comparator is consistent, as it is on NaN-free inputs). -/
def sortJS (l : List JSNum) : List JSNum := l.insertionSort jsLe

/-- Source function median: sorts a copy of the array ascending and takes
the middle element (odd length) or the mean of the two middle elements
(even length).  Out-of-bounds indexing (empty input) yields undefined,
whose arithmetic is NaN, modelled by the NaN default. -/
def median (array : List JSNum) : JSNum :=
  let mid := array.length / 2
  let numbers := sortJS array
  if array.length % 2 ≠ 0 then numbers.getD mid nan
  else JSNum.div (JSNum.add (numbers.getD (mid - 1) nan) (numbers.getD mid nan)) (real 2)

/-- Source function formatTime: Math.round(number * 10 ^ 2) / 10 ^ 2. -/
def formatTime (number : JSNum) : JSNum :=
  let factor : JSNum := real ((10 : ℚ) ^ 2)
  JSNum.div (JSNum.mul number factor).round factor

/-- A raw performance result bundle (WPRawPerformanceResults): a JSON
object mapping each metric name to an array of samples.  A field is none
when the key is absent from the object (the value read is undefined). -/
structure WPRawPerformanceResults where
  serverResponse : Option (List JSNum)
  firstPaint : Option (List JSNum)
  domContentLoaded : Option (List JSNum)
  loaded : Option (List JSNum)
  firstContentfulPaint : Option (List JSNum)
  firstBlock : Option (List JSNum)
  type : Option (List JSNum)
  focus : Option (List JSNum)
  inserterOpen : Option (List JSNum)
  inserterSearch : Option (List JSNum)
  inserterHover : Option (List JSNum)
  listViewOpen : Option (List JSNum)
deriving DecidableEq, Repr

/-- A curated performance result bundle (WPPerformanceResults), in the
field order of the object literal built by curateResults. -/
structure WPPerformanceResults where
  serverResponse : JSNum
  firstPaint : JSNum
  domContentLoaded : JSNum
  loaded : JSNum
  firstContentfulPaint : JSNum
  firstBlock : JSNum
  type : JSNum
  minType : JSNum
  maxType : JSNum
  focus : JSNum
  minFocus : JSNum
  maxFocus : JSNum
  inserterOpen : JSNum
  minInserterOpen : JSNum
  maxInserterOpen : JSNum
  inserterSearch : JSNum
  minInserterSearch : JSNum
  maxInserterSearch : JSNum
  inserterHover : JSNum
  minInserterHover : JSNum
  maxInserterHover : JSNum
  listViewOpen : JSNum
  minListViewOpen : JSNum
  maxListViewOpen : JSNum
deriving DecidableEq, Repr, Inhabited

/-- The runtime TypeError raised when a metric key is absent: reading the
reduce property of undefined (inside average), or spreading undefined
(inside Math.min / Math.max).  Neither error mentions which metric key
was absent; the message is determined by the failed operation alone. -/
inductive JSError where
  | undefinedReduce
  | undefinedSpread
deriving DecidableEq, Repr

/-- The constant V8 message of each runtime TypeError; it names the
operation, never the absent metric key. -/
def JSError.message : JSError → String
  | .undefinedReduce => "Cannot read properties of undefined (reading reduce)"
  | .undefinedSpread => "Spread syntax requires iterable"

/-- Source function curateResults: builds the curated object literal
field by field in source order.  The first field whose metric key is
absent raises (average reads reduce on undefined); evaluation is
all-or-nothing.  Each metric appears first in an average call, so an
absent key always surfaces as the undefinedReduce TypeError. -/
def curateResults (results : WPRawPerformanceResults) : Except JSError WPPerformanceResults :=
  match results.serverResponse with
  | none => .error .undefinedReduce
  | some serverResponse =>
  match results.firstPaint with
  | none => .error .undefinedReduce
  | some firstPaint =>
  match results.domContentLoaded with
  | none => .error .undefinedReduce
  | some domContentLoaded =>
  match results.loaded with
  | none => .error .undefinedReduce
  | some loaded =>
  match results.firstContentfulPaint with
  | none => .error .undefinedReduce
  | some firstContentfulPaint =>
  match results.firstBlock with
  | none => .error .undefinedReduce
  | some firstBlock =>
  match results.type with
  | none => .error .undefinedReduce
  | some type =>
  match results.focus with
  | none => .error .undefinedReduce
  | some focus =>
  match results.inserterOpen with
  | none => .error .undefinedReduce
  | some inserterOpen =>
  match results.inserterSearch with
  | none => .error .undefinedReduce
  | some inserterSearch =>
  match results.inserterHover with
  | none => .error .undefinedReduce
  | some inserterHover =>
  match results.listViewOpen with
  | none => .error .undefinedReduce
  | some listViewOpen =>
  .ok
    { serverResponse := average serverResponse
      firstPaint := average firstPaint
      domContentLoaded := average domContentLoaded
      loaded := average loaded
      firstContentfulPaint := average firstContentfulPaint
      firstBlock := average firstBlock
      type := average type
      minType := mathMin type
      maxType := mathMax type
      focus := average focus
      minFocus := mathMin focus
      maxFocus := mathMax focus
      inserterOpen := average inserterOpen
      minInserterOpen := mathMin inserterOpen
      maxInserterOpen := mathMax inserterOpen
      inserterSearch := average inserterSearch
      minInserterSearch := mathMin inserterSearch
      maxInserterSearch := mathMax inserterSearch
      inserterHover := average inserterHover
      minInserterHover := mathMin inserterHover
      maxInserterHover := mathMax inserterHover
      listViewOpen := average listViewOpen
      minListViewOpen := mathMin listViewOpen
      maxListViewOpen := mathMax listViewOpen }

/-- The longest digit prefix of a character list together with the rest
(the first backslash-d-plus of the version pattern; being anchored and
followed by a literal dot, the greedy maximal run is the only viable
match). -/
def takeDigits : List Char → List Char × List Char
  | [] => ([], [])
  | c :: cs =>
      if c.isDigit then
        let p := takeDigits cs
        (c :: p.1, p.2)
      else ([], c :: cs)

/-- Whether a character can be matched by the unescaped dot of the
pattern (any character except a line terminator). -/
def dotMatches (c : Char) : Bool :=
  c ≠ '\n' && c ≠ '\r' && c.val ≠ 0x2028 && c.val ≠ 0x2029

/-- The unescaped dot of the pattern followed by the literal digit zero:
matches when the input starts with any dot-matchable character followed
by a zero, returning the remaining input. -/
def dotZeroAt : List Char → Option (List Char)
  | x :: z :: rest => if z = '0' ∧ dotMatches x then some rest else none
  | _ => none

/-- Matching of the tail of the version pattern: a second
backslash-d-plus (greedy, with backtracking), then the unescaped dot
(any character), then the literal digit zero.  Returns the digits
captured into the group tail plus the input remaining after the whole
match.  Longer digit runs are preferred, as in the regex engine. -/
def matchDigitsDotZero : List Char → Option (List Char × List Char)
  | [] => none
  | c :: cs =>
      if c.isDigit then
        match matchDigitsDotZero cs with
        | some (ds, rest) => some (c :: ds, rest)
        | none =>
            match dotZeroAt cs with
            | some rest => some ([c], rest)
            | none => none
      else none

/-- The replace of the version pattern on the character list of the
version string: on a match the matched text is replaced by the first
group (the digits, the literal dot and the captured digits), the rest of
the string kept; otherwise the input is returned unchanged. -/
def zipVersionL (cs : List Char) : List Char :=
  let p := takeDigits cs
  match p.1, p.2 with
  | [], _ => cs
  | d1, c :: r2 =>
      if c = '.' then
        match matchDigitsDotZero r2 with
        | some (d2, rest) => d1 ++ '.' :: d2 ++ rest
        | none => cs
      else cs
  | _, _ => cs

/-- Source expression options.wpVersion.replace(pattern, group): the
pattern is anchored digits, a literal dot, digits, an unescaped dot and
a zero. -/
def zipVersion (wpVersion : String) : String := String.mk (zipVersionL wpVersion.data)

/-- Source expression building the version-specific core archive URL from
the remapped version. -/
def zipUrl (wpVersion : String) : String :=
  "https://wordpress.org/wordpress-" ++ zipVersion wpVersion ++ ".zip"

/-- The wp-env configuration object: the core key naming the
base-platform archive, other keys carried along untouched. -/
structure WPEnvConfig where
  core : String
  rest : List (String × String)
deriving DecidableEq, Repr

/-- The configuration patch applied when options.wpVersion is given: the
object spread keeps every other key and overwrites core with the
version-specific archive URL. -/
def patchConfig (conf : WPEnvConfig) (wpVersion : String) : WPEnvConfig :=
  { conf with core := zipUrl wpVersion }

/-- The revision-resolution prologue of runPerformanceTests: default the
branch list, infer the two CI refs when running in CI with no explicit
branches, and guard.  Entries are optional strings because the inferred
environment refs may be undefined while still counting toward the array
length.  The guard only rejects an empty ref array. -/
def resolveRefs (branches : List String) (runningInCI : Bool)
    (mergeRef baseRef : Option String) : Except String (List (Option String)) :=
  let branchesWereSpecified := decide (0 < branches.length)
  let inferTestBranches := runningInCI && !branchesWereSpecified
  let branches2 := if branches.length = 0 then ["trunk"] else branches
  let refs := if inferTestBranches then [mergeRef, baseRef] else branches2.map some
  if refs.length ≤ 0 then .error "Need at least two git refs to run" else .ok refs

/-- JavaScript object property assignment on a string-keyed dictionary
modelled as an association list: update in place when the key exists,
append at the end otherwise (insertion order is preserved). -/
def upsert {α : Type} (k : String) (v : α) : List (String × α) → List (String × α)
  | [] => [(k, v)]
  | (k2, v2) :: rest => if k2 = k then (k, v) :: rest else (k2, v2) :: upsert k v rest

/-- An invocation of one of the awaited external commands of the trial
loop: wp-env start in a revision's environment directory, the test
command of a suite, or wp-env stop.  Environments are identified by
their revision. -/
inductive Event where
  | start (ref : String)
  | test (suite : String)
  | stop (ref : String)
deriving DecidableEq, Repr

/-- Whether an event is a wp-env stop invocation. -/
def Event.isStop : Event → Bool
  | .stop _ => true
  | _ => false

/-- The error aborting a run: a failed wp-env start, a failed test
command (or unreadable result file), a TypeError raised by curation, or
a failed wp-env stop. -/
inductive RunError where
  | startFailed (suite : String) (round : Nat) (ref : String)
  | testCommandFailed (suite : String) (round : Nat) (ref : String)
  | curateFailed (e : JSError)
  | stopFailed (suite : String) (round : Nat) (ref : String)
deriving DecidableEq, Repr

/-- Outcomes of the awaited external effects of the trial loop, indexed
by the (suite, round, revision) iteration at which they are awaited:
whether wp-env start succeeds, the raw JSON bundle produced by the test
command (error when the command fails or the result file is unreadable),
and whether wp-env stop succeeds. -/
structure TrialOracle where
  startOk : String → Nat → String → Bool
  rawOf : String → Nat → String → Except Unit WPRawPerformanceResults
  stopOk : String → Nat → String → Bool

/-- Source function runTestSuite at iteration (suite, round, ref): run
the test command, read the raw JSON results, curate them.  A command or
read failure, or a curation TypeError, propagates. -/
def runTestSuiteM (o : TrialOracle) (suite : String) (round : Nat) (ref : String) :
    Except RunError WPPerformanceResults :=
  match o.rawOf suite round ref with
  | .error _ => .error (.testCommandFailed suite round ref)
  | .ok raw =>
      match curateResults raw with
      | .error e => .error (.curateFailed e)
      | .ok curated => .ok curated

/-- The inner loop over refs of one round of the trial loop: for each
ref in order, invoke wp-env start, run and curate the suite, invoke
wp-env stop, and assign the curated bundle to the round's accumulator
object at the ref key.  Any failure propagates immediately; there is no
try/finally around the test step.  Returns the trace of command
invocations and either the round's accumulator or the first error. -/
def runRefsRound (o : TrialOracle) (suite : String) (round : Nat) :
    List String → List (String × WPPerformanceResults) →
    List Event × Except RunError (List (String × WPPerformanceResults))
  | [], acc => ([], .ok acc)
  | ref :: rest, acc =>
      if o.startOk suite round ref then
        match runTestSuiteM o suite round ref with
        | .error e => ([.start ref, .test suite], .error e)
        | .ok curated =>
            if o.stopOk suite round ref then
              let next := runRefsRound o suite round rest (upsert ref curated acc)
              (.start ref :: .test suite :: .stop ref :: next.1, next.2)
            else ([.start ref, .test suite, .stop ref], .error (.stopFailed suite round ref))
      else ([.start ref], .error (.startFailed suite round ref))

/-- The round loop of the trial loop, counting the round index up from
its current value for the given number of remaining rounds; each round
starts from a fresh accumulator object and the rounds' accumulators are
collected in index order. -/
def runRoundsFrom (o : TrialOracle) (suite : String) (refs : List String) :
    Nat → Nat →
    List Event × Except RunError (List (List (String × WPPerformanceResults)))
  | _, 0 => ([], .ok [])
  | i, n + 1 =>
      let this := runRefsRound o suite i refs []
      match this.2 with
      | .error e => (this.1, .error e)
      | .ok roundAcc =>
          let next := runRoundsFrom o suite refs (i + 1) n
          (this.1 ++ next.1, next.2.map (roundAcc :: ·))

/-- The three alternating rounds of the source trial loop (for i from 0
while i is below 3). -/
def runRounds3 (o : TrialOracle) (suite : String) (refs : List String) :
    List Event × Except RunError (List (List (String × WPPerformanceResults))) :=
  runRoundsFrom o suite refs 0 3

/-- The per-metric medians object of the source: for each of the 24 keys
of the curated bundles, the median of that key's values across the
collected rounds. -/
def computeMedians (rounds : List WPPerformanceResults) : WPPerformanceResults :=
  { serverResponse := median (rounds.map (·.serverResponse))
    firstPaint := median (rounds.map (·.firstPaint))
    domContentLoaded := median (rounds.map (·.domContentLoaded))
    loaded := median (rounds.map (·.loaded))
    firstContentfulPaint := median (rounds.map (·.firstContentfulPaint))
    firstBlock := median (rounds.map (·.firstBlock))
    type := median (rounds.map (·.type))
    minType := median (rounds.map (·.minType))
    maxType := median (rounds.map (·.maxType))
    focus := median (rounds.map (·.focus))
    minFocus := median (rounds.map (·.minFocus))
    maxFocus := median (rounds.map (·.maxFocus))
    inserterOpen := median (rounds.map (·.inserterOpen))
    minInserterOpen := median (rounds.map (·.minInserterOpen))
    maxInserterOpen := median (rounds.map (·.maxInserterOpen))
    inserterSearch := median (rounds.map (·.inserterSearch))
    minInserterSearch := median (rounds.map (·.minInserterSearch))
    maxInserterSearch := median (rounds.map (·.maxInserterSearch))
    inserterHover := median (rounds.map (·.inserterHover))
    minInserterHover := median (rounds.map (·.minInserterHover))
    maxInserterHover := median (rounds.map (·.maxInserterHover))
    listViewOpen := median (rounds.map (·.listViewOpen))
    minListViewOpen := median (rounds.map (·.minListViewOpen))
    maxListViewOpen := median (rounds.map (·.maxListViewOpen)) }

/-- mapValues(medians, formatTime): formatTime applied to each of the 24
keys. -/
def formatBundle (r : WPPerformanceResults) : WPPerformanceResults :=
  { serverResponse := formatTime r.serverResponse
    firstPaint := formatTime r.firstPaint
    domContentLoaded := formatTime r.domContentLoaded
    loaded := formatTime r.loaded
    firstContentfulPaint := formatTime r.firstContentfulPaint
    firstBlock := formatTime r.firstBlock
    type := formatTime r.type
    minType := formatTime r.minType
    maxType := formatTime r.maxType
    focus := formatTime r.focus
    minFocus := formatTime r.minFocus
    maxFocus := formatTime r.maxFocus
    inserterOpen := formatTime r.inserterOpen
    minInserterOpen := formatTime r.minInserterOpen
    maxInserterOpen := formatTime r.maxInserterOpen
    inserterSearch := formatTime r.inserterSearch
    minInserterSearch := formatTime r.minInserterSearch
    maxInserterSearch := formatTime r.maxInserterSearch
    inserterHover := formatTime r.inserterHover
    minInserterHover := formatTime r.minInserterHover
    maxInserterHover := formatTime r.maxInserterHover
    listViewOpen := formatTime r.listViewOpen
    minListViewOpen := formatTime r.minListViewOpen
    maxListViewOpen := formatTime r.maxListViewOpen }

/-- The aggregation of one revision after the rounds of a suite:
mapValues over the medians object with formatTime.  In the source each
round's accumulator holds the ref key whenever this code is reached; the
default bundle of the lookup is never used on that path. -/
def aggregateRef (rawResults : List (List (String × WPPerformanceResults))) (ref : String) :
    WPPerformanceResults :=
  formatBundle (computeMedians (rawResults.map (fun r => (r.lookup ref).getD default)))

/-- The medians loop of the source: for each ref in order, assign the
aggregated bundle of that ref into the suite's result object. -/
def aggregateSuite (rawResults : List (List (String × WPPerformanceResults)))
    (refs : List String) : List (String × WPPerformanceResults) :=
  refs.foldl (fun acc ref => upsert ref (aggregateRef rawResults ref) acc) []

/-- The outer loop of section 4 of runPerformanceTests over the fixed
suite list: run the three rounds of each suite and, on success, compute
the suite's aggregated table; the first error propagates with the trace
so far. -/
def runSuites (o : TrialOracle) (refs : List String) :
    List String → List Event × Except RunError (List (String × List (String × WPPerformanceResults)))
  | [] => ([], .ok [])
  | suite :: rest =>
      let this := runRounds3 o suite refs
      match this.2 with
      | .error e => (this.1, .error e)
      | .ok rawResults =>
          let tbl := aggregateSuite rawResults refs
          let next := runSuites o refs rest
          (this.1 ++ next.1, next.2.map ((suite, tbl) :: ·))

/-- The fixed suite list of the source. -/
def testSuites : List String := ["post-editor", "site-editor"]

/-- Section 4 of runPerformanceTests: the trial loop over the fixed
suite list, the three rounds per suite, and the per-suite aggregation
into the final results table. -/
def runPerformanceTestsTrials (o : TrialOracle) (refs : List String) :
    List Event × Except RunError (List (String × List (String × WPPerformanceResults))) :=
  runSuites o refs testSuites

/-- The 24 keys of a curated bundle with their values, in the insertion
order of the object literal (Object.keys order). -/
def bundleEntries (r : WPPerformanceResults) : List (String × JSNum) :=
  [("serverResponse", r.serverResponse), ("firstPaint", r.firstPaint),
   ("domContentLoaded", r.domContentLoaded), ("loaded", r.loaded),
   ("firstContentfulPaint", r.firstContentfulPaint), ("firstBlock", r.firstBlock),
   ("type", r.type), ("minType", r.minType), ("maxType", r.maxType),
   ("focus", r.focus), ("minFocus", r.minFocus), ("maxFocus", r.maxFocus),
   ("inserterOpen", r.inserterOpen), ("minInserterOpen", r.minInserterOpen),
   ("maxInserterOpen", r.maxInserterOpen), ("inserterSearch", r.inserterSearch),
   ("minInserterSearch", r.minInserterSearch), ("maxInserterSearch", r.maxInserterSearch),
   ("inserterHover", r.inserterHover), ("minInserterHover", r.minInserterHover),
   ("maxInserterHover", r.maxInserterHover), ("listViewOpen", r.listViewOpen),
   ("minListViewOpen", r.minListViewOpen), ("maxListViewOpen", r.maxListViewOpen)]

/-- One step of the inversion reduce of section 5: a finite value is
written into the inverted table under its metric key (the row being
created on demand); a non-finite value is skipped.  The display
suffixes the decimal rendering with a millisecond unit; the cell is
modelled by its numeric payload. -/
def addCell (acc : List (String × List (String × JSNum))) (metric ref : String) (v : JSNum) :
    List (String × List (String × JSNum)) :=
  if v.isFinite then upsert metric (upsert ref v ((acc.lookup metric).getD [])) acc
  else acc

/-- The inversion of one suite's results table for console display:
metric to revision to cell, keeping only finite values. -/
def invertResults (suiteResults : List (String × WPPerformanceResults)) :
    List (String × List (String × JSNum)) :=
  suiteResults.foldl
    (fun acc kv => (bundleEntries kv.2).foldl (fun a mv => addCell a mv.1 kv.1 mv.2) acc)
    []

/-- Modelled from the spec: rounding the scaled value half away from
zero, the rounding mode the spec ascribes to formatTime. -/
def formatTimeSpec (q : ℚ) : ℚ :=
  let x := q * 100
  (if 0 ≤ x then ((⌊x + 1 / 2⌋ : ℤ) : ℚ) else -((⌊-x + 1 / 2⌋ : ℤ) : ℚ)) / 100

/-- A raw bundle whose type metric is the three samples 10, 20, 30 and
whose other metrics are a single sample. -/
def rawTypeExample : WPRawPerformanceResults :=
  ⟨some [real 1], some [real 1], some [real 1], some [real 1], some [real 1], some [real 1],
   some [real 10, real 20, real 30], some [real 1], some [real 1], some [real 1],
   some [real 1], some [real 1]⟩

/-- A raw bundle with every metric present except type. -/
def rawMissingType : WPRawPerformanceResults :=
  ⟨some [real 1], some [real 1], some [real 1], some [real 1], some [real 1], some [real 1],
   none, some [real 1], some [real 1], some [real 1], some [real 1], some [real 1]⟩

/-- A raw bundle with every metric present except focus. -/
def rawMissingFocus : WPRawPerformanceResults :=
  ⟨some [real 1], some [real 1], some [real 1], some [real 1], some [real 1], some [real 1],
   some [real 1], none, some [real 1], some [real 1], some [real 1], some [real 1]⟩

/-- All cells of an inverted table are finite. -/
def OnlyFinite (acc : List (String × List (String × JSNum))) : Prop :=
  ∀ m row ref v, acc.lookup m = some row → row.lookup ref = some v → v.isFinite = true

/-- All three awaited effects of one (suite, round, ref) iteration
succeed. -/
def stepOk (o : TrialOracle) (s : String) (i : Nat) (r : String) : Prop :=
  o.startOk s i r = true ∧ (runTestSuiteM o s i r).isOk = true ∧ o.stopOk s i r = true

instance (o : TrialOracle) (s : String) (i : Nat) (r : String) :
    Decidable (stepOk o s i r) := by
  unfold stepOk
  infer_instance

/-- The curated bundle produced by a successful (suite, round, ref)
iteration. -/
def testResult (o : TrialOracle) (s : String) (i : Nat) (r : String) : WPPerformanceResults :=
  match runTestSuiteM o s i r with
  | .ok c => c
  | .error _ => default

/-- The per-round assignment object after the refs loop: every ref
visited in order, each upserting its curated bundle. -/
def roundAcc (o : TrialOracle) (s : String) (i : Nat) (refs : List String) :
    List (String × WPPerformanceResults) :=
  refs.foldl (fun a r => upsert r (testResult o s i r) a) []

/-- The command-invocation trace of one fully successful round of one
suite: for each ref in order, start, test, stop. -/
def tripleTrace (s : String) (refs : List String) : List Event :=
  refs.flatMap (fun r => [Event.start r, Event.test s, Event.stop r])

/-- An oracle whose test command always fails (with every start and stop
succeeding). -/
def failingOracle : TrialOracle :=
  ⟨fun _ _ _ => true, fun _ _ _ => .error (), fun _ _ _ => true⟩

/-- The 24 metric entries of a curated or aggregated bundle, as
projections. -/
def metricProjs : List (WPPerformanceResults → JSNum) :=
  [fun b => b.serverResponse, fun b => b.firstPaint, fun b => b.domContentLoaded,
   fun b => b.loaded, fun b => b.firstContentfulPaint, fun b => b.firstBlock,
   fun b => b.type, fun b => b.minType, fun b => b.maxType,
   fun b => b.focus, fun b => b.minFocus, fun b => b.maxFocus,
   fun b => b.inserterOpen, fun b => b.minInserterOpen, fun b => b.maxInserterOpen,
   fun b => b.inserterSearch, fun b => b.minInserterSearch, fun b => b.maxInserterSearch,
   fun b => b.inserterHover, fun b => b.minInserterHover, fun b => b.maxInserterHover,
   fun b => b.listViewOpen, fun b => b.minListViewOpen, fun b => b.maxListViewOpen]

def okOracle : TrialOracle :=
  ⟨fun _ _ _ => true, fun _ _ _ => .ok rawTypeExample, fun _ _ _ => true⟩

/-- Claim C8, amended: formatTime scales by 100, applies Math.round
(closest integer, ties toward positive infinity, i.e. floor of x + 1/2)
and divides by 100; this agrees with rounding half away from zero on
every non-negative input, and in particular 12.345 rounds to 12.35 and
12.344 to 12.34. -/
theorem formatTime_rounds_half_toward_posinf (q : ℚ) :
    formatTime (real q) = real (((⌊q * 100 + 1 / 2⌋ : ℤ) : ℚ) / 100) ∧
    (0 ≤ q → formatTime (real q) = real (formatTimeSpec q)) ∧
    formatTime (real (12345 / 1000)) = real (1235 / 100) ∧
    formatTime (real (12344 / 1000)) = real (1234 / 100) := by
  refine ⟨?_, ?_, ?_, ?_⟩
  · norm_num [formatTime, JSNum.mul, JSNum.round, JSNum.div]
  · intro hq
    have hx : (0:ℚ) ≤ q * 100 := by positivity
    norm_num [formatTime, JSNum.mul, JSNum.round, JSNum.div, formatTimeSpec, if_pos hx]
    rw [if_pos hq]
  · norm_num [formatTime, JSNum.mul, JSNum.round, JSNum.div]
  · norm_num [formatTime, JSNum.mul, JSNum.round, JSNum.div]

/-- Claim C8, counterexample: at -0.005 the code rounds the scaled
value -0.5 up to 0 (toward positive infinity), while rounding half away
from zero would give -0.01, so formatTime does not round half away from
zero on every number. -/
theorem formatTime_negative_tie_toward_zero :
    formatTime (real (-1 / 200)) = real 0 ∧ formatTimeSpec (-1 / 200) = -1 / 100 ∧
    formatTime (real (-1 / 200)) ≠ real (formatTimeSpec (-1 / 200)) := by
  refine ⟨?_, ?_, ?_⟩
  · norm_num [formatTime, JSNum.mul, JSNum.round, JSNum.div]
  · norm_num [formatTimeSpec]
  · norm_num [formatTime, JSNum.mul, JSNum.round, JSNum.div, formatTimeSpec]

theorem jsLe_real_iff (a b : ℚ) : a ≤ b ↔ jsLe (real a) (real b) := by
  simp [jsLe, cmpLt, JSNum.sub, JSNum.isNeg, not_lt, sub_nonneg]

theorem sortJS_map_real (l : List ℚ) :
    sortJS (l.map real) = (l.insertionSort (· ≤ ·)).map real := by
  rw [sortJS, List.map_insertionSort (r := (· ≤ ·)) (s := jsLe) real l]
  intro a _ b _
  exact jsLe_real_iff a b

theorem getD_map_real (s : List ℚ) (i : Nat) (h : i < s.length) :
    (s.map real).getD i nan = real (s.getD i 0) := by
  simp [List.getD_eq_getElem?_getD, List.getElem?_map,
    List.getElem?_eq_getElem (by simpa using h : i < (s.map real).length),
    List.getElem?_eq_getElem h]

/-- Claim C7: for every non-empty sequence of numbers, median takes a
sorted ascending permutation of the input and returns its middle element
for odd length and the mean of its two middle elements for even length;
the result is invariant under permutation of the input (the input is
never mutated: the sort acts on a copy by construction of the pure
embedding); median of 1, 2, 3 is 2 and median of 1, 2, 3, 4 is 5/2. -/
theorem median_of_sorted_copy (l l2 : List ℚ) (h : l ≠ []) :
    (∃ s : List ℚ, s.Perm l ∧ s.Sorted (· ≤ ·) ∧
      median (l.map real) =
        real (if l.length % 2 = 1 then s.getD (l.length / 2) 0
          else (s.getD (l.length / 2 - 1) 0 + s.getD (l.length / 2) 0) / 2)) ∧
    (l.Perm l2 → median (l.map real) = median (l2.map real)) ∧
    median [real 1, real 2, real 3] = real 2 ∧
    median [real 1, real 2, real 3, real 4] = real (5 / 2) := by
  have hlen : 0 < l.length := List.length_pos.mpr h
  refine ⟨?_, ?_, ?_, ?_⟩
  · refine ⟨l.insertionSort (· ≤ ·), List.perm_insertionSort _ l,
      List.sorted_insertionSort _ l, ?_⟩
    have hslen : (l.insertionSort (· ≤ ·)).length = l.length :=
      (List.perm_insertionSort _ l).length_eq
    rw [median, sortJS_map_real]
    simp only [List.length_map]
    rcases Nat.even_or_odd l.length with he | ho
    · have hmod : l.length % 2 = 0 := Nat.even_iff.mp he
      have hge2 : 2 ≤ l.length := by omega
      have hmid : l.length / 2 < l.length := Nat.div_lt_self hlen (by norm_num)
      have hmid1 : l.length / 2 - 1 < l.length := by omega
      rw [if_neg (by omega), if_neg (by omega)]
      rw [getD_map_real _ _ (by omega), getD_map_real _ _ (by omega)]
      simp [JSNum.add, JSNum.div]
    · have hmod : l.length % 2 = 1 := Nat.odd_iff.mp ho
      have hmid : l.length / 2 < l.length := Nat.div_lt_self hlen (by norm_num)
      rw [if_pos (by omega), if_pos (by omega)]
      rw [getD_map_real _ _ (by omega)]
  · intro hperm
    have hlen2 : l.length = l2.length := hperm.length_eq
    have hsorteq : l.insertionSort (· ≤ ·) = l2.insertionSort (· ≤ ·) := by
      refine List.eq_of_perm_of_sorted ?_ (List.sorted_insertionSort _ l)
        (List.sorted_insertionSort _ l2)
      exact (List.perm_insertionSort _ l).trans (hperm.trans (List.perm_insertionSort _ l2).symm)
    rw [median, median, sortJS_map_real, sortJS_map_real, hsorteq]
    simp only [List.length_map, hlen2]
  · norm_num [median, sortJS, List.insertionSort, List.orderedInsert, jsLe, cmpLt,
      JSNum.sub, JSNum.isNeg, JSNum.add, JSNum.div]
  · norm_num [median, sortJS, List.insertionSort, List.orderedInsert, jsLe, cmpLt,
      JSNum.sub, JSNum.isNeg, JSNum.add, JSNum.div]

theorem foldl_add_map_real (l : List ℚ) (a : ℚ) :
    (l.map real).foldl JSNum.add (real a) = real (a + l.sum) := by
  induction l generalizing a with
  | nil => simp
  | cons b t ih => simp [JSNum.add, ih, add_assoc]

theorem average_map_real (l : List ℚ) (h : l ≠ []) :
    average (l.map real) = real (l.sum / l.length) := by
  have hn : ((l.length : ℚ)) ≠ 0 := Nat.cast_ne_zero.mpr (List.length_pos.mpr h).ne'
  rw [average, foldl_add_map_real]
  simp [JSNum.div, hn]

theorem minStep_real (a b : ℚ) : minStep (real a) (real b) = real (min a b) := by
  rcases lt_or_ge b a with hb | hb
  · simp [minStep, JSNum.lt, hb, min_eq_right hb.le]
  · simp [minStep, JSNum.lt, not_lt.mpr hb, min_eq_left hb]

theorem maxStep_real (a b : ℚ) : maxStep (real a) (real b) = real (max a b) := by
  rcases lt_or_ge a b with hb | hb
  · simp [maxStep, JSNum.lt, hb, max_eq_right hb.le]
  · simp [maxStep, JSNum.lt, not_lt.mpr hb, max_eq_left hb]

theorem foldl_minStep_map_real (l : List ℚ) (a : ℚ) :
    (l.map real).foldl minStep (real a) = real (l.foldl min a) := by
  induction l generalizing a with
  | nil => simp
  | cons b t ih => simp [minStep_real, ih]

theorem foldl_maxStep_map_real (l : List ℚ) (a : ℚ) :
    (l.map real).foldl maxStep (real a) = real (l.foldl max a) := by
  induction l generalizing a with
  | nil => simp
  | cons b t ih => simp [maxStep_real, ih]

theorem foldl_min_mem (t : List ℚ) (c : ℚ) : t.foldl min c ∈ c :: t := by
  induction t generalizing c with
  | nil => simp
  | cons b t2 ih =>
    simp only [List.foldl_cons]
    have h2 := ih (min c b)
    simp only [List.mem_cons] at h2 ⊢
    rcases h2 with h2 | h2
    · rcases min_choice c b with h | h
      · exact Or.inl (h2.trans h)
      · exact Or.inr (Or.inl (h2.trans h))
    · exact Or.inr (Or.inr h2)

theorem foldl_min_le (t : List ℚ) (c : ℚ) : ∀ x ∈ c :: t, t.foldl min c ≤ x := by
  induction t generalizing c with
  | nil => simp
  | cons b t2 ih =>
    intro x hx
    have hmin : t2.foldl min (min c b) ≤ min c b := ih (min c b) (min c b) (by simp)
    simp only [List.foldl_cons]
    simp only [List.mem_cons] at hx
    rcases hx with rfl | rfl | hx
    · exact hmin.trans (min_le_left _ _)
    · exact hmin.trans (min_le_right _ _)
    · exact ih (min c b) x (List.mem_cons_of_mem _ hx)

theorem foldl_max_mem (t : List ℚ) (c : ℚ) : t.foldl max c ∈ c :: t := by
  induction t generalizing c with
  | nil => simp
  | cons b t2 ih =>
    simp only [List.foldl_cons]
    have h2 := ih (max c b)
    simp only [List.mem_cons] at h2 ⊢
    rcases h2 with h2 | h2
    · rcases max_choice c b with h | h
      · exact Or.inl (h2.trans h)
      · exact Or.inr (Or.inl (h2.trans h))
    · exact Or.inr (Or.inr h2)

theorem foldl_max_ge (t : List ℚ) (c : ℚ) : ∀ x ∈ c :: t, x ≤ t.foldl max c := by
  induction t generalizing c with
  | nil => simp
  | cons b t2 ih =>
    intro x hx
    have hmax : max c b ≤ t2.foldl max (max c b) := ih (max c b) (max c b) (by simp)
    simp only [List.foldl_cons]
    simp only [List.mem_cons] at hx
    rcases hx with rfl | rfl | hx
    · exact (le_max_left _ _).trans hmax
    · exact (le_max_right _ _).trans hmax
    · exact ih (max c b) x (List.mem_cons_of_mem _ hx)

theorem mathMin_cons_map_real (c : ℚ) (t : List ℚ) :
    mathMin ((c :: t).map real) = real (t.foldl min c) := by
  rw [mathMin]
  simp only [List.map_cons, List.foldl_cons]
  have h1 : minStep inf (real c) = real c := by simp [minStep, JSNum.lt]
  rw [h1, foldl_minStep_map_real]

theorem mathMax_cons_map_real (c : ℚ) (t : List ℚ) :
    mathMax ((c :: t).map real) = real (t.foldl max c) := by
  rw [mathMax]
  simp only [List.map_cons, List.foldl_cons]
  have h1 : maxStep negInf (real c) = real c := by simp [maxStep, JSNum.lt]
  rw [h1, foldl_maxStep_map_real]

theorem mathMin_map_real (l : List ℚ) (h : l ≠ []) :
    ∃ m, mathMin (l.map real) = real m ∧ m ∈ l ∧ ∀ x ∈ l, m ≤ x := by
  rcases l with _ | ⟨c, t⟩
  · exact absurd rfl h
  · exact ⟨t.foldl min c, mathMin_cons_map_real c t, foldl_min_mem t c, foldl_min_le t c⟩

theorem mathMax_map_real (l : List ℚ) (h : l ≠ []) :
    ∃ m, mathMax (l.map real) = real m ∧ m ∈ l ∧ ∀ x ∈ l, x ≤ m := by
  rcases l with _ | ⟨c, t⟩
  · exact absurd rfl h
  · exact ⟨t.foldl max c, mathMax_cons_map_real c t, foldl_max_mem t c, foldl_max_ge t c⟩

/-- Claim C6: on a raw bundle whose twelve metrics are all present with
non-empty finite sample arrays, curateResults succeeds and returns the
arithmetic average for each of the twelve metrics, and additionally the
minimum and maximum (as the min and max keys, present in the curated
bundle for exactly the six metrics type, focus, inserterOpen,
inserterSearch, inserterHover and listViewOpen); in particular type
samples 10, 20, 30 yield average 20, minimum 10 and maximum 30. -/
theorem curateResults_averages_and_extremes
    (sr fp dcl ld fcp fb ty fo io ise ih lv : List ℚ)
    (h1 : sr ≠ []) (h2 : fp ≠ []) (h3 : dcl ≠ []) (h4 : ld ≠ []) (h5 : fcp ≠ [])
    (h6 : fb ≠ []) (h7 : ty ≠ []) (h8 : fo ≠ []) (h9 : io ≠ []) (h10 : ise ≠ [])
    (h11 : ih ≠ []) (h12 : lv ≠ []) :
    (∃ b, curateResults
        ⟨some (sr.map real), some (fp.map real), some (dcl.map real), some (ld.map real),
         some (fcp.map real), some (fb.map real), some (ty.map real), some (fo.map real),
         some (io.map real), some (ise.map real), some (ih.map real), some (lv.map real)⟩ =
        .ok b ∧
      b.serverResponse = real (sr.sum / sr.length) ∧
      b.firstPaint = real (fp.sum / fp.length) ∧
      b.domContentLoaded = real (dcl.sum / dcl.length) ∧
      b.loaded = real (ld.sum / ld.length) ∧
      b.firstContentfulPaint = real (fcp.sum / fcp.length) ∧
      b.firstBlock = real (fb.sum / fb.length) ∧
      b.type = real (ty.sum / ty.length) ∧
      b.focus = real (fo.sum / fo.length) ∧
      b.inserterOpen = real (io.sum / io.length) ∧
      b.inserterSearch = real (ise.sum / ise.length) ∧
      b.inserterHover = real (ih.sum / ih.length) ∧
      b.listViewOpen = real (lv.sum / lv.length) ∧
      (∃ m, b.minType = real m ∧ m ∈ ty ∧ ∀ x ∈ ty, m ≤ x) ∧
      (∃ m, b.maxType = real m ∧ m ∈ ty ∧ ∀ x ∈ ty, x ≤ m) ∧
      (∃ m, b.minFocus = real m ∧ m ∈ fo ∧ ∀ x ∈ fo, m ≤ x) ∧
      (∃ m, b.maxFocus = real m ∧ m ∈ fo ∧ ∀ x ∈ fo, x ≤ m) ∧
      (∃ m, b.minInserterOpen = real m ∧ m ∈ io ∧ ∀ x ∈ io, m ≤ x) ∧
      (∃ m, b.maxInserterOpen = real m ∧ m ∈ io ∧ ∀ x ∈ io, x ≤ m) ∧
      (∃ m, b.minInserterSearch = real m ∧ m ∈ ise ∧ ∀ x ∈ ise, m ≤ x) ∧
      (∃ m, b.maxInserterSearch = real m ∧ m ∈ ise ∧ ∀ x ∈ ise, x ≤ m) ∧
      (∃ m, b.minInserterHover = real m ∧ m ∈ ih ∧ ∀ x ∈ ih, m ≤ x) ∧
      (∃ m, b.maxInserterHover = real m ∧ m ∈ ih ∧ ∀ x ∈ ih, x ≤ m) ∧
      (∃ m, b.minListViewOpen = real m ∧ m ∈ lv ∧ ∀ x ∈ lv, m ≤ x) ∧
      (∃ m, b.maxListViewOpen = real m ∧ m ∈ lv ∧ ∀ x ∈ lv, x ≤ m)) ∧
    (∃ b2, curateResults rawTypeExample = .ok b2 ∧ b2.type = real 20 ∧
      b2.minType = real 10 ∧ b2.maxType = real 30) := by
  refine ⟨?_, ?_⟩
  · exact ⟨_, rfl, average_map_real sr h1, average_map_real fp h2, average_map_real dcl h3,
    average_map_real ld h4, average_map_real fcp h5, average_map_real fb h6,
    average_map_real ty h7, average_map_real fo h8, average_map_real io h9,
    average_map_real ise h10, average_map_real ih h11, average_map_real lv h12,
    mathMin_map_real ty h7, mathMax_map_real ty h7,
    mathMin_map_real fo h8, mathMax_map_real fo h8,
    mathMin_map_real io h9, mathMax_map_real io h9,
    mathMin_map_real ise h10, mathMax_map_real ise h10,
    mathMin_map_real ih h11, mathMax_map_real ih h11,
    mathMin_map_real lv h12, mathMax_map_real lv h12⟩
  · refine ⟨_, rfl, ?_, ?_, ?_⟩
    · show average [real 10, real 20, real 30] = real 20
      norm_num [average, JSNum.add, JSNum.div]
    · show mathMin (([10, 20, 30] : List ℚ).map real) = real 10
      rw [mathMin_cons_map_real]
      norm_num [List.foldl, min_def]
    · show mathMax (([10, 20, 30] : List ℚ).map real) = real 30
      rw [mathMax_cons_map_real]
      norm_num [List.foldl, max_def]

/-- Claim C3, counterexample: a bundle missing the type metric and a
bundle missing the focus metric fail with the same TypeError, so the
error cannot identify the absent metric's name. -/
theorem curateResults_error_does_not_name_metric :
    curateResults rawMissingType = .error .undefinedReduce ∧
    curateResults rawMissingFocus = .error .undefinedReduce ∧
    curateResults rawMissingType = curateResults rawMissingFocus := ⟨rfl, rfl, rfl⟩

/-- Claim C3, amended: when any required metric key is absent,
curateResults raises a TypeError and produces no partial curated bundle
(curation is all-or-nothing); the error, however, does not identify the
absent metric's name (see the counterexample). -/
theorem curateResults_missing_key_raises (b : WPRawPerformanceResults)
    (h : b.serverResponse = none ∨ b.firstPaint = none ∨ b.domContentLoaded = none ∨
      b.loaded = none ∨ b.firstContentfulPaint = none ∨ b.firstBlock = none ∨
      b.type = none ∨ b.focus = none ∨ b.inserterOpen = none ∨ b.inserterSearch = none ∨
      b.inserterHover = none ∨ b.listViewOpen = none) :
    ∃ e, curateResults b = .error e := by
  rcases e1 : b.serverResponse with _ | l1
  · exact ⟨.undefinedReduce, by simp [curateResults, e1]⟩
  rcases e2 : b.firstPaint with _ | l2
  · exact ⟨.undefinedReduce, by simp [curateResults, e1, e2]⟩
  rcases e3 : b.domContentLoaded with _ | l3
  · exact ⟨.undefinedReduce, by simp [curateResults, e1, e2, e3]⟩
  rcases e4 : b.loaded with _ | l4
  · exact ⟨.undefinedReduce, by simp [curateResults, e1, e2, e3, e4]⟩
  rcases e5 : b.firstContentfulPaint with _ | l5
  · exact ⟨.undefinedReduce, by simp [curateResults, e1, e2, e3, e4, e5]⟩
  rcases e6 : b.firstBlock with _ | l6
  · exact ⟨.undefinedReduce, by simp [curateResults, e1, e2, e3, e4, e5, e6]⟩
  rcases e7 : b.type with _ | l7
  · exact ⟨.undefinedReduce, by simp [curateResults, e1, e2, e3, e4, e5, e6, e7]⟩
  rcases e8 : b.focus with _ | l8
  · exact ⟨.undefinedReduce, by simp [curateResults, e1, e2, e3, e4, e5, e6, e7, e8]⟩
  rcases e9 : b.inserterOpen with _ | l9
  · exact ⟨.undefinedReduce, by simp [curateResults, e1, e2, e3, e4, e5, e6, e7, e8, e9]⟩
  rcases e10 : b.inserterSearch with _ | l10
  · exact ⟨.undefinedReduce, by simp [curateResults, e1, e2, e3, e4, e5, e6, e7, e8, e9, e10]⟩
  rcases e11 : b.inserterHover with _ | l11
  · exact ⟨.undefinedReduce, by simp [curateResults, e1, e2, e3, e4, e5, e6, e7, e8, e9, e10, e11]⟩
  rcases e12 : b.listViewOpen with _ | l12
  · exact ⟨.undefinedReduce, by simp [curateResults, e1, e2, e3, e4, e5, e6, e7, e8, e9, e10, e11, e12]⟩
  simp_all

theorem lookup_upsert {α : Type} (k k2 : String) (v : α) (l : List (String × α)) :
    (upsert k v l).lookup k2 = if k2 = k then some v else l.lookup k2 := by
  induction l with
  | nil =>
    by_cases h : k2 = k
    · simp [upsert, List.lookup, h]
    · have hb : (k2 == k) = false := beq_eq_false_iff_ne.mpr h
      simp [upsert, List.lookup, hb, h]
  | cons p t ihl =>
    obtain ⟨a, b⟩ := p
    by_cases hak : a = k
    · subst hak
      by_cases h : k2 = a
      · simp [upsert, List.lookup, h]
      · have hb : (k2 == a) = false := beq_eq_false_iff_ne.mpr h
        simp [upsert, List.lookup, hb, h]
    · by_cases h : k2 = k
      · subst h
        have hb : (k2 == a) = false := beq_eq_false_iff_ne.mpr (Ne.symm hak)
        simp [upsert, hak, List.lookup, ihl, hb]
      · by_cases h2 : k2 = a
        · have hb : (k2 == a) = true := beq_iff_eq.mpr h2
          simp [upsert, hak, List.lookup, ihl, h, h2, hb]
        · have hb : (k2 == a) = false := beq_eq_false_iff_ne.mpr h2
          simp [upsert, hak, List.lookup, ihl, h, h2, hb]

theorem addCell_onlyFinite (acc : List (String × List (String × JSNum)))
    (metric ref : String) (v : JSNum) (h : OnlyFinite acc) :
    OnlyFinite (addCell acc metric ref v) := by
  rw [addCell]
  split
  · rename_i hfin
    intro m row ref2 v2 hm hr
    rw [lookup_upsert] at hm
    split at hm
    · rename_i hmm
      cases hm
      rw [lookup_upsert] at hr
      split at hr
      · cases hr; exact hfin
      · rcases hacc : acc.lookup metric with _ | row0
        · rw [hacc] at hr; simp at hr
        · rw [hacc] at hr; exact h metric row0 ref2 v2 hacc hr
    · exact h m row ref2 v2 hm hr
  · exact h

theorem foldl_addCell_onlyFinite (entries : List (String × JSNum)) (ref : String)
    (acc : List (String × List (String × JSNum))) (h : OnlyFinite acc) :
    OnlyFinite (entries.foldl (fun a mv => addCell a mv.1 ref mv.2) acc) := by
  induction entries generalizing acc with
  | nil => exact h
  | cons e t ihe => exact ihe _ (addCell_onlyFinite acc e.1 ref e.2 h)

theorem invertResults_onlyFinite (t : List (String × WPPerformanceResults)) :
    OnlyFinite (invertResults t) := by
  rw [invertResults]
  have base : OnlyFinite ([] : List (String × List (String × JSNum))) := by
    intro m row ref v hm
    simp [List.lookup] at hm
  generalize hacc : ([] : List (String × List (String × JSNum))) = acc0 at base ⊢
  clear hacc
  induction t generalizing acc0 with
  | nil => exact base
  | cons kv t2 iht => exact iht _ (foldl_addCell_onlyFinite (bundleEntries kv.2) kv.1 acc0 base)

/-- Claim C10: when all twelve metric keys are present but a sample
array is empty, curateResults returns a bundle without raising: the
metric's average is NaN (zero divided by zero), and for the six min/max
metrics the minimum is positive infinity and the maximum negative
infinity (the empty-fold identities); such non-finite values are
excluded from the inverted human-readable view by the isFinite filter,
and they pass unchanged through the median and formatTime stages. -/
theorem curateResults_empty_samples_non_finite
    (sr fp dcl ld fcp fb ty fo io ise ihv lv : List JSNum) :
    (∃ b, curateResults ⟨some sr, some fp, some dcl, some ld, some fcp, some fb, some ty,
        some fo, some io, some ise, some ihv, some lv⟩ = .ok b ∧
      (sr = [] → b.serverResponse = nan) ∧
      (fp = [] → b.firstPaint = nan) ∧
      (dcl = [] → b.domContentLoaded = nan) ∧
      (ld = [] → b.loaded = nan) ∧
      (fcp = [] → b.firstContentfulPaint = nan) ∧
      (fb = [] → b.firstBlock = nan) ∧
      (ty = [] → b.type = nan ∧ b.minType = inf ∧ b.maxType = negInf) ∧
      (fo = [] → b.focus = nan ∧ b.minFocus = inf ∧ b.maxFocus = negInf) ∧
      (io = [] → b.inserterOpen = nan ∧ b.minInserterOpen = inf ∧ b.maxInserterOpen = negInf) ∧
      (ise = [] → b.inserterSearch = nan ∧ b.minInserterSearch = inf ∧
        b.maxInserterSearch = negInf) ∧
      (ihv = [] → b.inserterHover = nan ∧ b.minInserterHover = inf ∧
        b.maxInserterHover = negInf) ∧
      (lv = [] → b.listViewOpen = nan ∧ b.minListViewOpen = inf ∧
        b.maxListViewOpen = negInf)) ∧
    (∀ t m row ref v, (invertResults t).lookup m = some row → row.lookup ref = some v →
      v.isFinite = true) ∧
    formatTime (median [nan, nan, nan]) = nan ∧
    formatTime (median [inf, inf, inf]) = inf ∧
    formatTime (median [negInf, negInf, negInf]) = negInf := by
  have havg : average [] = nan := by norm_num [average, JSNum.div]
  refine ⟨⟨_, rfl, ?_, ?_, ?_, ?_, ?_, ?_, ?_, ?_, ?_, ?_, ?_, ?_⟩,
    fun t m row ref v hm hr => invertResults_onlyFinite t m row ref v hm hr, ?_, ?_, ?_⟩
  · rintro rfl; exact havg
  · rintro rfl; exact havg
  · rintro rfl; exact havg
  · rintro rfl; exact havg
  · rintro rfl; exact havg
  · rintro rfl; exact havg
  · rintro rfl; exact ⟨havg, rfl, rfl⟩
  · rintro rfl; exact ⟨havg, rfl, rfl⟩
  · rintro rfl; exact ⟨havg, rfl, rfl⟩
  · rintro rfl; exact ⟨havg, rfl, rfl⟩
  · rintro rfl; exact ⟨havg, rfl, rfl⟩
  · rintro rfl; exact ⟨havg, rfl, rfl⟩
  · norm_num [median, sortJS, List.insertionSort, List.orderedInsert, jsLe, cmpLt,
      JSNum.sub, JSNum.isNeg, formatTime, JSNum.mul, JSNum.round, JSNum.div]
  · norm_num [median, sortJS, List.insertionSort, List.orderedInsert, jsLe, cmpLt,
      JSNum.sub, JSNum.isNeg, formatTime, JSNum.mul, JSNum.round, JSNum.div]
  · norm_num [median, sortJS, List.insertionSort, List.orderedInsert, jsLe, cmpLt,
      JSNum.sub, JSNum.isNeg, formatTime, JSNum.mul, JSNum.round, JSNum.div]

theorem takeDigits_digits_dot (x : List Char) (r : List Char) (hx : ∀ c ∈ x, c.isDigit) :
    takeDigits (x ++ '.' :: r) = (x, '.' :: r) := by
  induction x with
  | nil =>
    have hdot : ('.' : Char).isDigit = false := by decide
    simp [takeDigits, hdot]
  | cons c x2 ih =>
    have hc : c.isDigit = true := hx c (by simp)
    simp [takeDigits, hc, ih (fun d hd => hx d (by simp [hd]))]

theorem matchDigitsDotZero_strip (y : List Char) (rest : List Char) (hy : y ≠ [])
    (hyd : ∀ c ∈ y, c.isDigit) :
    matchDigitsDotZero (y ++ '.' :: '0' :: rest) = some (y, rest) := by
  induction y with
  | nil => exact absurd rfl hy
  | cons c y2 ih =>
    have hc : c.isDigit = true := hyd c (by simp)
    have hdot : ('.' : Char).isDigit = false := by decide
    have hdm : dotMatches '.' = true := by decide
    rcases y2 with _ | ⟨d, y3⟩
    · simp [matchDigitsDotZero, hc, hdot, hdm, dotZeroAt]
    · have ih2 := ih (by simp) (fun e he => hyd e (by simp [he]))
      simp only [List.cons_append] at ih2 ⊢
      rw [matchDigitsDotZero, if_pos hc, ih2]

theorem matchDigitsDotZero_no_match (y z : List Char) (hyd : ∀ c ∈ y, c.isDigit)
    (hz : z ≠ []) (hzh : z.head? ≠ some '0') (hy0 : '0' ∉ y.drop 2) :
    matchDigitsDotZero (y ++ '.' :: z) = none := by
  induction y with
  | nil =>
    have hdot : ('.' : Char).isDigit = false := by decide
    simp [matchDigitsDotZero, hdot]
  | cons c y2 ih =>
    have hc : c.isDigit = true := hyd c (by simp)
    have ihy0 : '0' ∉ y2.drop 2 := by
      intro hmem
      apply hy0
      have h2 : y2.drop 2 = (y2.drop 1).drop 1 := by
        rw [List.drop_drop]
      have hmem1 : '0' ∈ y2.drop 1 := List.mem_of_mem_drop (h2 ▸ hmem)
      simpa using hmem1
    have hrec : matchDigitsDotZero (y2 ++ '.' :: z) = none :=
      ih (fun e he => hyd e (by simp [he])) ihy0
    rw [List.cons_append, matchDigitsDotZero, if_pos hc, hrec]
    rcases y2 with _ | ⟨d, y3⟩
    · rcases z with _ | ⟨z0, zt⟩
      · exact absurd rfl hz
      · have hz0 : ¬ z0 = '0' := by
          intro h
          exact hzh (by simp [h])
        simp [dotZeroAt, hz0]
    · rcases y3 with _ | ⟨e, y4⟩
      · have hne : ¬ ('.' : Char) = '0' := by decide
        simp [dotZeroAt, hne]
      · have he : ¬ e = '0' := by
          intro h
          exact hy0 (by simp [h])
        simp [dotZeroAt, he]

/-- Claim C9, amended: for a base-platform version X.Y.Z with numeric
components, the version used in the core URL strips a trailing zero
patch (X.Y.0 becomes X.Y); a non-zero canonical patch is left unchanged
provided the minor component has no zero digit at its third or later
position (true of every minor below 100) — because the dot of the
pattern is unescaped, versions such as 6.100.2 are mangled (see the
counterexample).  The URL examples of the claim hold. -/
theorem zipVersion_patch_remap (x y z : List Char)
    (hx : x ≠ []) (hxd : ∀ c ∈ x, c.isDigit) (hy : y ≠ []) (hyd : ∀ c ∈ y, c.isDigit)
    (hz : z ≠ []) (hzd : ∀ c ∈ z, c.isDigit) :
    (z = ['0'] →
      zipVersion (String.mk (x ++ '.' :: y ++ '.' :: z)) = String.mk (x ++ '.' :: y)) ∧
    (z.head? ≠ some '0' → '0' ∉ y.drop 2 →
      zipVersion (String.mk (x ++ '.' :: y ++ '.' :: z)) =
        String.mk (x ++ '.' :: y ++ '.' :: z)) ∧
    zipUrl "6.1.0" = "https://wordpress.org/wordpress-6.1.zip" ∧
    zipUrl "6.1.2" = "https://wordpress.org/wordpress-6.1.2.zip" := by
  have hdata : (String.mk (x ++ '.' :: y ++ '.' :: z)).data = x ++ '.' :: (y ++ '.' :: z) := by
    simp
  refine ⟨?_, ?_, by decide, by decide⟩
  · rintro rfl
    rw [zipVersion, zipVersionL, hdata, takeDigits_digits_dot x _ hxd]
    rcases x with _ | ⟨c, x2⟩
    · exact absurd rfl hx
    · dsimp only
      rw [if_pos rfl, matchDigitsDotZero_strip y [] hy hyd]
      simp
  · intro hzh hy0
    rw [zipVersion, zipVersionL, hdata, takeDigits_digits_dot x _ hxd]
    rcases x with _ | ⟨c, x2⟩
    · exact absurd rfl hx
    · dsimp only
      rw [if_pos rfl, matchDigitsDotZero_no_match y z hyd hz hzh hy0]
      simp

/-- Claim C9, counterexample: the patch version 6.100.2 is not left
unchanged: the unescaped dot of the pattern matches the third digit of
the minor component and the version is rewritten to 6.1.2. -/
theorem zipVersion_unescaped_dot_mangles :
    zipVersion "6.100.2" = "6.1.2" ∧ "6.1.2" ≠ "6.100.2" := by
  constructor
  · decide
  · decide

theorem runTestSuiteM_ok_of_stepOk {o : TrialOracle} {s : String} {i : Nat} {r : String}
    (h : stepOk o s i r) : runTestSuiteM o s i r = .ok (testResult o s i r) := by
  rcases h with ⟨-, hok, -⟩
  rw [testResult]
  cases he : runTestSuiteM o s i r with
  | ok c => rfl
  | error e => rw [he] at hok; simp [Except.isOk, Except.toBool] at hok

theorem runRefsRound_ok (o : TrialOracle) (s : String) (i : Nat) (refs : List String)
    (h : ∀ r ∈ refs, stepOk o s i r) (acc : List (String × WPPerformanceResults)) :
    runRefsRound o s i refs acc =
      (refs.flatMap (fun r => [Event.start r, Event.test s, Event.stop r]),
       .ok (refs.foldl (fun a r => upsert r (testResult o s i r) a) acc)) := by
  induction refs generalizing acc with
  | nil => simp [runRefsRound]
  | cons r rest ih =>
    obtain ⟨hstart, -, hstop⟩ := h r (by simp)
    have hok := runTestSuiteM_ok_of_stepOk (h r (by simp))
    rw [runRefsRound, if_pos hstart, hok]
    dsimp only
    rw [if_pos hstop, ih (fun x hx => h x (by simp [hx])) (upsert r (testResult o s i r) acc)]
    simp

theorem runRounds3_ok (o : TrialOracle) (s : String) (refs : List String)
    (h : ∀ i, i < 3 → ∀ r ∈ refs, stepOk o s i r) :
    runRounds3 o s refs =
      (tripleTrace s refs ++ tripleTrace s refs ++ tripleTrace s refs,
       .ok [roundAcc o s 0 refs, roundAcc o s 1 refs, roundAcc o s 2 refs]) := by
  rw [runRounds3, runRoundsFrom, runRefsRound_ok o s 0 refs (h 0 (by norm_num)) []]
  dsimp only
  rw [runRoundsFrom, runRefsRound_ok o s 1 refs (h 1 (by norm_num)) []]
  dsimp only
  rw [runRoundsFrom, runRefsRound_ok o s 2 refs (h 2 (by norm_num)) []]
  dsimp only
  rw [runRoundsFrom]
  simp [tripleTrace, roundAcc, Except.map]

theorem runSuites_ok (o : TrialOracle) (refs : List String) (suites : List String)
    (h : ∀ s ∈ suites, ∀ i, i < 3 → ∀ r ∈ refs, stepOk o s i r) :
    runSuites o refs suites =
      (suites.flatMap (fun s => tripleTrace s refs ++ tripleTrace s refs ++ tripleTrace s refs),
       .ok (suites.map (fun s =>
         (s, aggregateSuite [roundAcc o s 0 refs, roundAcc o s 1 refs, roundAcc o s 2 refs]
           refs)))) := by
  induction suites with
  | nil => simp [runSuites]
  | cons s rest ih =>
    rw [runSuites, runRounds3_ok o s refs (h s (by simp))]
    dsimp only
    rw [ih (fun x hx => h x (by simp [hx]))]
    simp [Except.map]

theorem lookup_foldl_upsert_notmem {α : Type} (f : String → α) (xs : List String)
    (acc : List (String × α)) (r : String) (hr : r ∉ xs) :
    (xs.foldl (fun a x => upsert x (f x) a) acc).lookup r = acc.lookup r := by
  induction xs generalizing acc with
  | nil => rfl
  | cons x rest ih =>
    have hrx : ¬ r = x := fun he => hr (by simp [he])
    rw [List.foldl_cons, ih _ (fun hm => hr (by simp [hm])), lookup_upsert, if_neg hrx]

theorem lookup_foldl_upsert {α : Type} (f : String → α) (xs : List String)
    (acc : List (String × α)) (r : String) (hr : r ∈ xs) :
    (xs.foldl (fun a x => upsert x (f x) a) acc).lookup r = some (f r) := by
  induction xs generalizing acc with
  | nil => simp at hr
  | cons x rest ih =>
    by_cases hmem : r ∈ rest
    · rw [List.foldl_cons, ih _ hmem]
    · have hrx : r = x := by
        rcases List.mem_cons.mp hr with h1 | h1
        · exact h1
        · exact absurd h1 hmem
      subst hrx
      rw [List.foldl_cons, lookup_foldl_upsert_notmem f rest _ r hmem, lookup_upsert, if_pos rfl]

theorem lookup_map_self {α : Type} (g : String → α) (xs : List String) (s : String)
    (hs : s ∈ xs) : (xs.map (fun x => (x, g x))).lookup s = some (g s) := by
  induction xs with
  | nil => simp at hs
  | cons x rest ih =>
    by_cases hsx : s = x
    · subst hsx
      simp [List.lookup]
    · have hb : (s == x) = false := beq_eq_false_iff_ne.mpr hsx
      have hmem : s ∈ rest := by
        rcases List.mem_cons.mp hs with h1 | h1
        · exact absurd h1 hsx
        · exact h1
      simp [List.lookup, hb, ih hmem]

theorem filter_isStop_tripleTrace (s : String) (refs : List String) :
    (tripleTrace s refs).filter Event.isStop = refs.map Event.stop := by
  induction refs with
  | nil => rfl
  | cons r rest ih =>
    simp only [tripleTrace, List.flatMap_cons] at ih ⊢
    simp [List.filter_append, Event.isStop] at ih ⊢
    exact ih

theorem runRefsRound_fail (o : TrialOracle) (s : String) (i : Nat)
    (pre : List String) (ref : String) (rest : List String) (e : RunError)
    (acc : List (String × WPPerformanceResults))
    (hpre : ∀ r ∈ pre, stepOk o s i r) (hstart : o.startOk s i ref = true)
    (htest : runTestSuiteM o s i ref = .error e) :
    runRefsRound o s i (pre ++ ref :: rest) acc =
      (pre.flatMap (fun r => [Event.start r, Event.test s, Event.stop r]) ++
        [Event.start ref, Event.test s], .error e) := by
  induction pre generalizing acc with
  | nil =>
    rw [List.nil_append, runRefsRound, if_pos hstart, htest]
    simp
  | cons p pre2 ih =>
    obtain ⟨hst, -, hsp⟩ := hpre p (by simp)
    have hok := runTestSuiteM_ok_of_stepOk (hpre p (by simp))
    rw [List.cons_append, runRefsRound, if_pos hst, hok]
    dsimp only
    rw [if_pos hsp, ih _ (fun x hx => hpre x (by simp [hx]))]
    simp

/-- Claim C1, amended: in the trial loop's per-round iteration, the
environment stop command is invoked exactly once per revision when every
step succeeds; but when the suite's test command fails after a
successful start, the error propagates immediately and stop is invoked
only for the previously completed revisions — never for the failed one
(there is no try/finally in the source). -/
theorem start_stop_pairing (o : TrialOracle) (s : String) (i : Nat)
    (acc : List (String × WPPerformanceResults)) :
    (∀ refs, (∀ r ∈ refs, stepOk o s i r) →
      ((runRefsRound o s i refs acc).1.filter Event.isStop).length = refs.length) ∧
    (∀ pre ref rest e, (∀ r ∈ pre, stepOk o s i r) → o.startOk s i ref = true →
      runTestSuiteM o s i ref = .error e →
      (runRefsRound o s i (pre ++ ref :: rest) acc).2 = .error e ∧
      (runRefsRound o s i (pre ++ ref :: rest) acc).1 =
        pre.flatMap (fun r => [Event.start r, Event.test s, Event.stop r]) ++
          [Event.start ref, Event.test s] ∧
      ((runRefsRound o s i (pre ++ ref :: rest) acc).1.filter Event.isStop).length =
        pre.length) := by
  constructor
  · intro refs h
    rw [runRefsRound_ok o s i refs h acc]
    have := filter_isStop_tripleTrace s refs
    rw [tripleTrace] at this
    simp [this]
  · intro pre ref rest e hpre hstart htest
    rw [runRefsRound_fail o s i pre ref rest e acc hpre hstart htest]
    have := filter_isStop_tripleTrace s pre
    rw [tripleTrace] at this
    refine ⟨rfl, rfl, ?_⟩
    simp [List.filter_append, this, Event.isStop]

/-- Claim C1, counterexample: with every start succeeding and the test
command failing, the whole trial section ends in the test error with a
trace of exactly one start and one test invocation and no stop
invocation at all: stop is not executed before the failure reaches the
caller. -/
theorem stop_skipped_on_test_failure :
    (runPerformanceTestsTrials failingOracle ["trunk", "feature-x"]).2 =
      .error (.testCommandFailed "post-editor" 0 "trunk") ∧
    (runPerformanceTestsTrials failingOracle ["trunk", "feature-x"]).1 =
      [Event.start "trunk", Event.test "post-editor"] ∧
    (runPerformanceTestsTrials failingOracle ["trunk", "feature-x"]).1.filter
      Event.isStop = [] := by
  refine ⟨rfl, rfl, rfl⟩

/-- Claim C5: when every step succeeds, the trial loop visits, for each
suite of the fixed suite list, exactly three rounds, and within every
round iterates the revisions in the order of the input refs, identically
in every round — the full invocation trace is the flat map over suites,
then three identical rounds, then refs of the start/test/stop triple —
with one suite execution per (suite, round, revision) whose curated
result is stored in that round's accumulator under that revision. -/
theorem trial_loop_order_and_rounds (o : TrialOracle) (refs : List String)
    (h : ∀ s ∈ testSuites, ∀ i, i < 3 → ∀ r ∈ refs, stepOk o s i r) :
    (runPerformanceTestsTrials o refs).1 =
      testSuites.flatMap (fun s => (List.range 3).flatMap (fun _ =>
        refs.flatMap (fun r => [Event.start r, Event.test s, Event.stop r]))) ∧
    ∀ s ∈ testSuites, ∃ rounds,
      (runRounds3 o s refs).2 = .ok rounds ∧ rounds.length = 3 ∧
      ∀ i, i < 3 → ∀ r ∈ refs,
        runTestSuiteM o s i r = .ok (testResult o s i r) ∧
        (rounds.getD i []).lookup r = some (testResult o s i r) := by
  constructor
  · rw [runPerformanceTestsTrials, runSuites_ok o refs testSuites h]
    simp only [show List.range 3 = [0, 1, 2] from rfl, List.flatMap_cons, List.flatMap_nil,
      List.append_nil, List.append_assoc, tripleTrace]
  · intro s hs
    refine ⟨[roundAcc o s 0 refs, roundAcc o s 1 refs, roundAcc o s 2 refs], ?_, rfl, ?_⟩
    · rw [runRounds3_ok o s refs (h s hs)]
    · intro i hi r hr
      refine ⟨runTestSuiteM_ok_of_stepOk (h s hs i hi r hr), ?_⟩
      interval_cases i
      · exact lookup_foldl_upsert _ refs [] r hr
      · exact lookup_foldl_upsert _ refs [] r hr
      · exact lookup_foldl_upsert _ refs [] r hr

/-- Claim C4: after a fully successful trial loop, the final table has
an entry for every suite of the fixed suite list and every revision of
the input refs (no pair is dropped), and each of its 24 metric entries
equals formatTime of the median of exactly the three per-round curated
values of that metric. -/
theorem final_table_medians (o : TrialOracle) (refs : List String)
    (h : ∀ s ∈ testSuites, ∀ i, i < 3 → ∀ r ∈ refs, stepOk o s i r) :
    ∀ s ∈ testSuites, ∀ r ∈ refs,
    ∃ tbl st v,
      (runPerformanceTestsTrials o refs).2 = .ok tbl ∧
      tbl.lookup s = some st ∧ st.lookup r = some v ∧
      ∃ c0 c1 c2,
        runTestSuiteM o s 0 r = .ok c0 ∧ runTestSuiteM o s 1 r = .ok c1 ∧
        runTestSuiteM o s 2 r = .ok c2 ∧
        ∀ p ∈ metricProjs, p v = formatTime (median [p c0, p c1, p c2]) := by
  intro s hs r hr
  rw [runPerformanceTestsTrials, runSuites_ok o refs testSuites h]
  refine ⟨_, _,
    aggregateRef [roundAcc o s 0 refs, roundAcc o s 1 refs, roundAcc o s 2 refs] r,
    rfl, lookup_map_self _ testSuites s hs, ?_, ?_⟩
  · rw [aggregateSuite]
    exact lookup_foldl_upsert _ refs [] r hr
  · refine ⟨testResult o s 0 r, testResult o s 1 r, testResult o s 2 r,
      runTestSuiteM_ok_of_stepOk (h s hs 0 (by norm_num) r hr),
      runTestSuiteM_ok_of_stepOk (h s hs 1 (by norm_num) r hr),
      runTestSuiteM_ok_of_stepOk (h s hs 2 (by norm_num) r hr), ?_⟩
    have hrounds : ([roundAcc o s 0 refs, roundAcc o s 1 refs, roundAcc o s 2 refs].map
        (fun rr => (rr.lookup r).getD default)) =
        [testResult o s 0 r, testResult o s 1 r, testResult o s 2 r] := by
      simp [roundAcc, lookup_foldl_upsert _ refs [] r hr]
    intro p hp
    rw [aggregateRef, hrounds]
    fin_cases hp <;> rfl

/-- Claim C2: the guard only rejects an empty ref array, so the non-CI
default (branches defaulted to trunk), an explicit single branch, and
the CI case with both environment refs undefined all pass the guard and
the run proceeds with fewer than two resolvable revisions — contradicting
the insufficient-revisions error message in the code itself. -/
theorem single_ref_accepted_by_guard :
    resolveRefs [] false none none = .ok [some "trunk"] ∧
    resolveRefs ["v1"] false none none = .ok [some "v1"] ∧
    resolveRefs [] true none none = .ok [none, none] := ⟨rfl, rfl, rfl⟩

/-- An oracle whose every effect succeeds, each test producing the
example raw bundle. -/
theorem start_stop_pairing_witness :
    ((runRefsRound okOracle "post-editor" 0 ["trunk"] []).1.filter Event.isStop).length = 1 ∧
    (runRefsRound failingOracle "post-editor" 0 ["trunk"] []).2 =
      .error (.testCommandFailed "post-editor" 0 "trunk") := by
  constructor
  · exact (start_stop_pairing okOracle "post-editor" 0 []).1 ["trunk"] (by decide)
  · exact ((start_stop_pairing failingOracle "post-editor" 0 []).2 [] "trunk" []
      (.testCommandFailed "post-editor" 0 "trunk") (by simp) rfl rfl).1

theorem trial_loop_order_witness :
    (runPerformanceTestsTrials okOracle ["trunk", "feature-x"]).1 =
      testSuites.flatMap (fun s => (List.range 3).flatMap (fun _ =>
        ["trunk", "feature-x"].flatMap
          (fun r => [Event.start r, Event.test s, Event.stop r]))) :=
  (trial_loop_order_and_rounds okOracle ["trunk", "feature-x"] (by decide)).1

theorem final_table_medians_witness :
    ∃ tbl st v,
      (runPerformanceTestsTrials okOracle ["trunk", "feature-x"]).2 = .ok tbl ∧
      tbl.lookup "post-editor" = some st ∧ st.lookup "trunk" = some v ∧
      ∃ c0 c1 c2,
        runTestSuiteM okOracle "post-editor" 0 "trunk" = .ok c0 ∧
        runTestSuiteM okOracle "post-editor" 1 "trunk" = .ok c1 ∧
        runTestSuiteM okOracle "post-editor" 2 "trunk" = .ok c2 ∧
        ∀ p ∈ metricProjs, p v = formatTime (median [p c0, p c1, p c2]) :=
  final_table_medians okOracle ["trunk", "feature-x"] (by decide) "post-editor" (by decide)
    "trunk" (by decide)

theorem curateResults_missing_key_raises_witness :
    ∃ e, curateResults rawMissingType = .error e :=
  curateResults_missing_key_raises rawMissingType (by decide)

theorem formatTime_rounds_half_toward_posinf_witness :
    formatTime (real (12345 / 1000)) = real (((⌊(12345 : ℚ) / 1000 * 100 + 1 / 2⌋ : ℤ) : ℚ) / 100) ∧
    formatTime (real (12345 / 1000)) = real (formatTimeSpec (12345 / 1000)) := by
  constructor
  · exact (formatTime_rounds_half_toward_posinf (12345 / 1000)).1
  · exact (formatTime_rounds_half_toward_posinf (12345 / 1000)).2.1 (by norm_num)

theorem median_of_sorted_copy_witness :
    median ([(2 : ℚ), 1, 3].map real) = median ([(1 : ℚ), 2, 3].map real) ∧
    median [real 1, real 2, real 3] = real 2 := by
  constructor
  · exact (median_of_sorted_copy [2, 1, 3] [1, 2, 3] (by simp)).2.1 (List.Perm.swap 1 2 [3])
  · exact (median_of_sorted_copy [2, 1, 3] [1, 2, 3] (by simp)).2.2.1

/-- Claim C6: on a raw bundle whose twelve metrics are all present with
non-empty finite sample arrays, curateResults succeeds and returns the
arithmetic average for each of the twelve metrics, and additionally the
minimum and maximum (as the min and max keys, present in the curated
bundle for exactly the six metrics type, focus, inserterOpen,
inserterSearch, inserterHover and listViewOpen); in particular type
samples 10, 20, 30 yield average 20, minimum 10 and maximum 30. -/
theorem curateResults_averages_and_extremes_witness :
    ∃ b, curateResults
        ⟨some ([(5 : ℚ)].map real), some ([(5 : ℚ)].map real), some ([(5 : ℚ)].map real),
         some ([(5 : ℚ)].map real), some ([(5 : ℚ)].map real), some ([(5 : ℚ)].map real),
         some ([(10 : ℚ), 20, 30].map real), some ([(5 : ℚ)].map real),
         some ([(5 : ℚ)].map real), some ([(5 : ℚ)].map real), some ([(5 : ℚ)].map real),
         some ([(5 : ℚ)].map real)⟩ = .ok b ∧
      b.type = real (([(10 : ℚ), 20, 30].sum) / ([(10 : ℚ), 20, 30].length)) ∧
      (∃ m, b.minType = real m ∧ m ∈ [(10 : ℚ), 20, 30] ∧ ∀ x ∈ [(10 : ℚ), 20, 30], m ≤ x) := by
  obtain ⟨⟨b, hok, ha1, ha2, ha3, ha4, ha5, ha6, ha7, ha8, ha9, ha10, ha11, ha12,
      hm1, hm2, hrest⟩, -⟩ :=
    curateResults_averages_and_extremes [5] [5] [5] [5] [5] [5] [10, 20, 30] [5] [5] [5] [5] [5]
      (by simp) (by simp) (by simp) (by simp) (by simp) (by simp) (by simp) (by simp)
      (by simp) (by simp) (by simp) (by simp)
  exact ⟨b, hok, ha7, hm1⟩

theorem zipVersion_patch_remap_witness :
    zipVersion "6.1.0" = "6.1" ∧ zipVersion "6.1.2" = "6.1.2" := by
  have h1 := (zipVersion_patch_remap ['6'] ['1'] ['0'] (by decide) (by decide) (by decide)
    (by decide) (by decide) (by decide)).1 rfl
  have h2 := (zipVersion_patch_remap ['6'] ['1'] ['2'] (by decide) (by decide) (by decide)
    (by decide) (by decide) (by decide)).2.1 (by decide) (by decide)
  exact ⟨h1, h2⟩

/-- Claim C10: when all twelve metric keys are present but a sample
array is empty, curateResults returns a bundle without raising: the
metric's average is NaN (zero divided by zero), and for the six min/max
metrics the minimum is positive infinity and the maximum negative
infinity (the empty-fold identities); such non-finite values are
excluded from the inverted human-readable view by the isFinite filter,
and they pass unchanged through the median and formatTime stages. -/
theorem curateResults_empty_samples_non_finite_witness :
    ∃ b, curateResults ⟨some [real 1], some [real 1], some [real 1], some [real 1],
        some [real 1], some [real 1], some [], some [real 1], some [real 1], some [real 1],
        some [real 1], some [real 1]⟩ = .ok b ∧
      b.type = nan ∧ b.minType = inf ∧ b.maxType = negInf := by
  obtain ⟨⟨b, hok, -, -, -, -, -, -, hty, -⟩, -⟩ :=
    curateResults_empty_samples_non_finite [real 1] [real 1] [real 1] [real 1] [real 1]
      [real 1] [] [real 1] [real 1] [real 1] [real 1] [real 1]
  obtain ⟨h1, h2, h3⟩ := hty rfl
  exact ⟨b, hok, h1, h2, h3⟩
